import Mathlib

/-!
Shallow embedding of `src/CommandQueue.h` from the ESP32_CNC_Pendant repository.

The file models the three queue classes of the header:
* `SizedQueue`   — the byte-backed Counter variant (record store + manual budgets);
* `SimpleCounter` — the counting-only Counter variant (lengths in an `etl::queue`);
* `MessageQueue` — the tagged queue pairing a record store with a tag FIFO.

Byte records are modelled as `List Nat` (the bytes a caller may read), machine
integers (`size_t`, `uint16_t`, `uint8_t`) as `Nat`: every arithmetic operation
performed by the code on reachable states is guarded against underflow by the
code's own checks, which the invariant proofs below establish.
-/

/-- Modelled from the spec: the Record Store (a FreeRTOS message buffer, an
external collaborator specified only at its interface boundary). It holds a
FIFO of variable-length records inside a fixed byte capacity; framing is the
store's responsibility, modelled as one framing byte per record (the spec's
inferred per-record delimiter). `send` fails exactly when there is
insufficient room and never partially writes; `receive` hands out exactly one
previously sent record (oldest first) and returns an empty record when the
store is empty; `reset` discards all buffered records. -/
structure MsgBuffer where
  cap : Nat
  msgs : List (List Nat)
deriving Repr, DecidableEq

/-- Per-record charge inside the store model: payload plus one framing byte. -/
def recCharge (m : List Nat) : Nat := m.length + 1

/-- Total bytes a list of records occupies in the store model. -/
def chargeSum (ms : List (List Nat)) : Nat := (ms.map recCharge).sum

/-- Bytes currently occupied in the store. -/
def MsgBuffer.used (b : MsgBuffer) : Nat := chargeSum b.msgs

/-- Modelled from the spec: `xMessageBufferCreateStatic` — an empty store of the
given byte capacity. -/
def MsgBuffer.createStatic (cap : Nat) : MsgBuffer := { cap := cap, msgs := [] }

/-- Modelled from the spec: `xMessageBufferSend` with zero timeout — enqueue the
record if it fits, otherwise fail immediately with no state change. -/
def MsgBuffer.send (b : MsgBuffer) (m : List Nat) : Option MsgBuffer :=
  if b.used + recCharge m ≤ b.cap then some { b with msgs := b.msgs ++ [m] } else none

/-- Modelled from the spec: `xMessageBufferReceive` with zero timeout — dequeue
the oldest record, or return the empty record when the store is empty. -/
def MsgBuffer.receive (b : MsgBuffer) : List Nat × MsgBuffer :=
  match b.msgs with
  | [] => ([], b)
  | m :: rest => (m, { b with msgs := rest })

/-- Modelled from the spec: `xMessageBufferReset` — discard all records. -/
def MsgBuffer.reset (b : MsgBuffer) : MsgBuffer := { b with msgs := [] }

/-- State of `SizedQueue<LEN_LINES, LEN_BYTES, MAX_LINE_LEN>`: the backing
record store, the two manual budgets and the one-slot peek cache.
`peekedLine` keeps the meaningful prefix of the C++ scratch array (the bytes
up to the terminator written by the last receive; stale bytes past it are
never read by the code). -/
structure SizedQueue (LEN_LINES LEN_BYTES MAX_LINE_LEN : Nat) where
  buf : MsgBuffer
  freeLines : Nat
  freeBytes : Nat
  peekedLine : List Nat
  peekedLineLen : Nat
  havePeekedLine : Bool
deriving Repr, DecidableEq

namespace SizedQueue

variable {L B M : Nat}

/-- The constructor: full budgets, fresh store. The cache fields are
zero-initialised (the object is created in static storage in `main.cpp`). -/
def init (L B M : Nat) : SizedQueue L B M :=
  { buf := MsgBuffer.createStatic B, freeLines := L, freeBytes := B
    peekedLine := [], peekedLineLen := 0, havePeekedLine := false }

/-- `SizedQueue::clear`. -/
def clear (q : SizedQueue L B M) : SizedQueue L B M :=
  { q with buf := q.buf.reset, havePeekedLine := false, peekedLineLen := 0
           freeLines := L, freeBytes := B }

/-- `SizedQueue::canPush`: truncate the length to `MAX_LINE_LEN`, then require
`freeBytes > len+1 && freeLines > 0`. -/
def canPush (q : SizedQueue L B M) (len : Nat) : Bool :=
  decide (min len M + 1 < q.freeBytes) && decide (0 < q.freeLines)

/-- `SizedQueue::size`. -/
def size (q : SizedQueue L B M) : Nat := L - q.freeLines

/-- `SizedQueue::getFreeLines`. -/
def getFreeLines (q : SizedQueue L B M) : Nat := q.freeLines

/-- `SizedQueue::bytes`. -/
def bytes (q : SizedQueue L B M) : Nat := B - q.freeBytes

/-- `SizedQueue::getFreeBytes`. -/
def getFreeBytes (q : SizedQueue L B M) : Nat := q.freeBytes

/-- `SizedQueue::push`: re-check `canPush`, truncate, send to the store, then
charge both budgets. The C++ wraps the send in `assert(...)`: a failing send
aborts the process, modelled as `none`. A successful call returns
`some (flag, nextState)`. -/
def push (q : SizedQueue L B M) (msg : List Nat) (len : Nat) :
    Option (Bool × SizedQueue L B M) :=
  if q.canPush len = false then some (false, q)
  else
    match q.buf.send (msg.take (min len M)) with
    | some b =>
        some (true, { q with buf := b, freeLines := q.freeLines - 1
                             freeBytes := q.freeBytes - (min len M + 1) })
    | none => none

/-- `SizedQueue::loadLineFromBuf`: receive one record into the cache; the cache
flag is set only when a non-empty record arrived. -/
def loadLineFromBuf (q : SizedQueue L B M) : SizedQueue L B M :=
  let r := q.buf.receive
  { q with buf := r.2, peekedLine := r.1, peekedLineLen := r.1.length
           havePeekedLine := decide (0 < r.1.length) }

/-- The state after `SizedQueue::peek` (which lazily fills the cache). -/
def peekSt (q : SizedQueue L B M) : SizedQueue L B M :=
  if q.size = 0 then q
  else if q.havePeekedLine then q
  else q.loadLineFromBuf

/-- `SizedQueue::peek`: returns the cached length and a view of the cached
record, plus the successor state. When `size() == 0` it returns 0 without
touching the out-parameter. -/
def peek (q : SizedQueue L B M) : (Nat × List Nat) × SizedQueue L B M :=
  if q.size = 0 then ((0, []), q)
  else
    let q1 := q.peekSt
    ((q1.peekedLineLen, q1.peekedLine), q1)

/-- `SizedQueue::pop`: release one line; refund from the cache when present,
otherwise receive directly from the store and refund what was read. -/
def pop (q : SizedQueue L B M) : SizedQueue L B M :=
  if q.size = 0 then q
  else if q.havePeekedLine then
    { q with freeLines := q.freeLines + 1
             freeBytes := q.freeBytes + (q.peekedLineLen + 1)
             havePeekedLine := false, peekedLineLen := 0 }
  else
    let r := q.buf.receive
    { q with buf := r.2, peekedLine := r.1, freeLines := q.freeLines + 1
             freeBytes := q.freeBytes + (r.1.length + 1) }

end SizedQueue

/-- State of `SimpleCounter<LEN_LINES, LEN_BYTES, SUFFIX_LEN>`: the
`etl::queue<size_t, LEN_LINES>` of record lengths and the manual byte budget. -/
structure SimpleCounter (LEN_LINES LEN_BYTES SUFFIX_LEN : Nat) where
  queue : List Nat
  freeBytes : Nat
deriving Repr, DecidableEq

namespace SimpleCounter

variable {L B S : Nat}

/-- The constructor: empty queue, full byte budget. -/
def init (L B S : Nat) : SimpleCounter L B S := { queue := [], freeBytes := B }

/-- `SimpleCounter::clear`. -/
def clear (_q : SimpleCounter L B S) : SimpleCounter L B S :=
  { queue := [], freeBytes := B }

/-- `SimpleCounter::canPush`: `queue.size() < LEN_LINES && freeBytes >= len+SUFFIX_LEN`.
No truncation, and the byte comparison is non-strict. -/
def canPush (q : SimpleCounter L B S) (len : Nat) : Bool :=
  decide (q.queue.length < L) && decide (len + S ≤ q.freeBytes)

/-- `SimpleCounter::push` (the `msg` pointer is ignored by the source). -/
def push (q : SimpleCounter L B S) (_msg : List Nat) (len : Nat) :
    Bool × SimpleCounter L B S :=
  if q.canPush len = false then (false, q)
  else (true, { queue := q.queue ++ [len], freeBytes := q.freeBytes - (len + S) })

/-- `SimpleCounter::size`. -/
def size (q : SimpleCounter L B S) : Nat := q.queue.length

/-- `SimpleCounter::getFreeLines`. -/
def getFreeLines (q : SimpleCounter L B S) : Nat := L - q.queue.length

/-- `SimpleCounter::bytes`. -/
def bytes (q : SimpleCounter L B S) : Nat := B - q.freeBytes

/-- `SimpleCounter::getFreeBytes`. -/
def getFreeBytes (q : SimpleCounter L B S) : Nat := q.freeBytes

/-- `SimpleCounter::peek`: the front length, 0 when empty; no state change. -/
def peek (q : SimpleCounter L B S) : Nat :=
  match q.queue with
  | [] => 0
  | v :: _ => v

/-- `SimpleCounter::pop`: dequeue the front length and refund `v+SUFFIX_LEN`. -/
def pop (q : SimpleCounter L B S) : SimpleCounter L B S :=
  match q.queue with
  | [] => q
  | v :: rest => { queue := rest, freeBytes := q.freeBytes + (v + S) }

end SimpleCounter

/-- `SENDER_QUEUE_SIZE`, the fixed capacity of the tag FIFO. -/
def SENDER_QUEUE_SIZE : Nat := 50

/-- State of `MessageQueue<Tag, SIZE, MAX_LINE_LEN>`: record store, the
`etl::queue<Tag*, SENDER_QUEUE_SIZE>` of tags, the two counters and the
one-slot peek cache. -/
structure MessageQueue (Tag : Type) (SIZE MAX_LINE_LEN : Nat) where
  buf : MsgBuffer
  tags : List Tag
  itemCount : Nat
  bytesCount : Nat
  peekedData : List Nat
  peekedLen : Nat
  havePeekedData : Bool
deriving DecidableEq

namespace MessageQueue

variable {Tag : Type} {SZ M : Nat}

/-- The constructor: `itemCount = 0`, fresh store; the remaining fields are
zero-initialised (static storage). -/
def init (Tag : Type) (SZ M : Nat) : MessageQueue Tag SZ M :=
  { buf := MsgBuffer.createStatic SZ, tags := [], itemCount := 0, bytesCount := 0
    peekedData := [], peekedLen := 0, havePeekedData := false }

/-- `MessageQueue::clear`: resets the store and the counters — but not the tag
FIFO, exactly as in the source. -/
def clear (q : MessageQueue Tag SZ M) : MessageQueue Tag SZ M :=
  { q with buf := q.buf.reset, itemCount := 0, bytesCount := 0
           havePeekedData := false }

/-- `MessageQueue::count`. -/
def count (q : MessageQueue Tag SZ M) : Nat := q.itemCount

/-- `MessageQueue::size`. -/
def size (q : MessageQueue Tag SZ M) : Nat := q.bytesCount

/-- `MessageQueue::available`. -/
def available (q : MessageQueue Tag SZ M) : Nat := SZ - q.bytesCount

/-- `MessageQueue::isEmpty`. -/
def isEmpty (q : MessageQueue Tag SZ M) : Bool := decide (q.itemCount = 0)

/-- `MessageQueue::canPush(len)`. -/
def canPush (q : MessageQueue Tag SZ M) (len : Nat) : Bool :=
  decide (len + 1 < q.available) && decide (0 < SENDER_QUEUE_SIZE - q.tags.length)

/-- `MessageQueue::push`: bail out when the tag FIFO is full, send the record
bytes, then enqueue the tag. Note that the source updates neither `itemCount`
nor `bytesCount` here. -/
def push (q : MessageQueue Tag SZ M) (data : List Nat) (len : Nat) (tag : Tag) :
    Bool × MessageQueue Tag SZ M :=
  if SENDER_QUEUE_SIZE - q.tags.length = 0 then (false, q)
  else
    match q.buf.send (data.take len) with
    | none => (false, q)
    | some b => (true, { q with buf := b, tags := q.tags ++ [tag] })

/-- `MessageQueue::loadFromBuffer`: receive one record into the cache; the
cache flag is set only when a non-empty record arrived. -/
def loadFromBuffer (q : MessageQueue Tag SZ M) : MessageQueue Tag SZ M :=
  let r := q.buf.receive
  if r.1.length = 0 then { q with buf := r.2, peekedLen := 0 }
  else { q with buf := r.2, peekedData := r.1, peekedLen := r.1.length
                havePeekedData := true }

/-- `MessageQueue::peek`: false when `itemCount == 0`; otherwise lazily load
the cache and report the cached record with the front tag (reading the front
of an empty `etl::queue` is undefined behaviour in C++, modelled as `none`). -/
def peek (q : MessageQueue Tag SZ M) :
    Option (List Nat × Nat × Tag) × MessageQueue Tag SZ M :=
  if q.itemCount = 0 then (none, q)
  else
    let q1 := if q.havePeekedData then q else q.loadFromBuffer
    match q1.tags.head? with
    | some t => (some (q1.peekedData, q1.peekedLen, t), q1)
    | none => (none, q1)

/-- `MessageQueue::pop`: false when `itemCount == 0`; otherwise ensure the
cache is loaded, decrement the counters, advance the tag FIFO and drop the
cache. -/
def pop (q : MessageQueue Tag SZ M) : Bool × MessageQueue Tag SZ M :=
  if q.itemCount = 0 then (false, q)
  else
    let q1 := if q.havePeekedData then q else q.loadFromBuffer
    (true, { q1 with itemCount := q1.itemCount - 1
                     bytesCount := q1.bytesCount - q1.peekedLen
                     tags := q1.tags.tail, havePeekedData := false })

end MessageQueue

/-- The records logically buffered in a `SizedQueue`, oldest first: the cached
record (when the cache flag is set) followed by the records still in the
store. -/
def SizedQueue.logicalRecs {L B M : Nat} (q : SizedQueue L B M) : List (List Nat) :=
  (if q.havePeekedLine then [q.peekedLine] else []) ++ q.buf.msgs

/-- The state invariant of `SizedQueue` maintained by every operation. `slack`
in `bytes_eq` counts zero-length records that a cache-missing `peek` silently
consumed from the store without refunding their one-byte charge: each still
holds one charged budget byte and one charged line. -/
structure SQInv {L B M : Nat} (q : SizedQueue L B M) : Prop where
  cap_eq : q.buf.cap = B
  lines_le : q.freeLines ≤ L
  logical_le : q.logicalRecs.length + q.freeLines ≤ L
  bytes_eq :
    q.freeBytes + chargeSum q.logicalRecs
      + ((L - q.freeLines) - q.logicalRecs.length) = B
  cache_len : q.havePeekedLine = true → q.peekedLineLen = q.peekedLine.length
  canon : q.havePeekedLine = false → q.peekedLineLen = 0
  bytes_pos : 1 ≤ B → 1 ≤ q.freeBytes

/-- States of `SizedQueue` reachable from the constructor by `clear`, `push`
(with a length not exceeding the caller's buffer, as any defined C++ call
must), `peek` and `pop`. -/
inductive SQReachable : {L B M : Nat} → SizedQueue L B M → Prop where
  | init (L B M : Nat) : SQReachable (SizedQueue.init L B M)
  | clear {L B M : Nat} {q : SizedQueue L B M} :
      SQReachable q → SQReachable q.clear
  | push {L B M : Nat} {q : SizedQueue L B M} {msg : List Nat} {len : Nat}
      {flag : Bool} {q' : SizedQueue L B M} :
      SQReachable q → len ≤ msg.length →
      SizedQueue.push q msg len = some (flag, q') → SQReachable q'
  | peek {L B M : Nat} {q : SizedQueue L B M} :
      SQReachable q → SQReachable q.peekSt
  | pop {L B M : Nat} {q : SizedQueue L B M} :
      SQReachable q → SQReachable q.pop

/-- The state invariant of `SimpleCounter` maintained by every operation. -/
structure SCInv {L B S : Nat} (q : SimpleCounter L B S) : Prop where
  len_le : q.queue.length ≤ L
  bytes_eq : q.freeBytes + (q.queue.map (fun v => v + S)).sum = B

/-- States of `SimpleCounter` reachable from the constructor by `clear`,
`push` and `pop` (`peek` does not change the state). -/
inductive SCReachable : {L B S : Nat} → SimpleCounter L B S → Prop where
  | init (L B S : Nat) : SCReachable (SimpleCounter.init L B S)
  | clear {L B S : Nat} {q : SimpleCounter L B S} :
      SCReachable q → SCReachable q.clear
  | push {L B S : Nat} {q : SimpleCounter L B S} {msg : List Nat} {len : Nat}
      {flag : Bool} {q' : SimpleCounter L B S} :
      SCReachable q → SimpleCounter.push q msg len = (flag, q') → SCReachable q'
  | pop {L B S : Nat} {q : SimpleCounter L B S} :
      SCReachable q → SCReachable q.pop

/-- A consumer operation of the byte-backed queue: `peek` or `pop`. -/
inductive COp where
  | peekOp
  | popOp
deriving Repr, DecidableEq

/-- Run a consumer schedule, threading the queue state. -/
def runOps {L B M : Nat} (q : SizedQueue L B M) : List COp → SizedQueue L B M
  | [] => q
  | COp.peekOp :: s => runOps q.peekSt s
  | COp.popOp :: s => runOps q.pop s

/-- Number of pops in a consumer schedule. -/
def popCount : List COp → Nat
  | [] => 0
  | COp.peekOp :: s => popCount s
  | COp.popOp :: s => popCount s + 1

/-- Iterate `pop` a fixed number of times (a peek-free drain). -/
def popIter {L B M : Nat} (q : SizedQueue L B M) : Nat → SizedQueue L B M
  | 0 => q
  | n + 1 => popIter q.pop n

/-- The admission predicate exactly as the spec words it for every Counter
variant (for the refinement comparison of C3): at least one free slot and a
byte budget strictly above the truncated charged length. -/
def specCanPush (freeLines freeBytes len maxLineLen overhead : Nat) : Bool :=
  decide (0 < freeLines) && decide (min len maxLineLen + overhead < freeBytes)

/-- A `SizedQueue 2 16 4` filled to its line capacity (the state after pushing
two one-byte records into a fresh queue): `freeLines = 0`, so any further
push must be rejected. -/
def sqFullExample : SizedQueue 2 16 4 :=
  { buf := { cap := 16, msgs := [[65], [66]] }, freeLines := 0, freeBytes := 12
    peekedLine := [], peekedLineLen := 0, havePeekedLine := false }

/-- A `SizedQueue 4 16 8` whose store holds a zero-length record followed by a
one-byte record (the state after pushing a zero-length record and then `[65]`
into a fresh queue). -/
def sqZeroRecExample : SizedQueue 4 16 8 :=
  { buf := { cap := 16, msgs := [[], [65]] }, freeLines := 2, freeBytes := 13
    peekedLine := [], peekedLineLen := 0, havePeekedLine := false }

/-- A `SimpleCounter 2 16 1` filled to its line capacity (two length-1 records
pushed into a fresh counter). -/
def scFullExample : SimpleCounter 2 16 1 := { queue := [1, 1], freeBytes := 12 }

/-- A fresh tagged queue (tag type `Nat`) after pushing three one-byte records
carrying the tags 1, 2, 3. -/
def mq3 : MessageQueue Nat 64 100 :=
  ((((MessageQueue.init Nat 64 100).push [65] 1 1).2.push [66] 1 2).2.push [67] 1 3).2

@[simp]
theorem chargeSum_nil : chargeSum [] = 0 := rfl

@[simp]
theorem chargeSum_cons (m : List Nat) (ms : List (List Nat)) :
    chargeSum (m :: ms) = (m.length + 1) + chargeSum ms := by
  simp [chargeSum, recCharge]

@[simp]
theorem chargeSum_append (xs ys : List (List Nat)) :
    chargeSum (xs ++ ys) = chargeSum xs + chargeSum ys := by
  simp [chargeSum]

theorem sqInv_init (L B M : Nat) : SQInv (SizedQueue.init L B M) := by
  refine ⟨rfl, Nat.le_refl L, ?_, ?_, ?_, ?_, ?_⟩ <;>
    simp [SizedQueue.init, SizedQueue.logicalRecs, MsgBuffer.createStatic, chargeSum]

theorem sqInv_clear {L B M : Nat} {q : SizedQueue L B M} (h : SQInv q) :
    SQInv q.clear := by
  refine ⟨h.cap_eq, Nat.le_refl L, ?_, ?_, ?_, ?_, ?_⟩ <;>
    simp [SizedQueue.clear, SizedQueue.logicalRecs, MsgBuffer.reset, chargeSum]

theorem loadLine_nil {L B M : Nat} {q : SizedQueue L B M}
    (hm : q.buf.msgs = []) :
    q.loadLineFromBuf =
      { q with peekedLine := [], peekedLineLen := 0, havePeekedLine := false } := by
  simp [SizedQueue.loadLineFromBuf, MsgBuffer.receive, hm]

theorem loadLine_cons {L B M : Nat} {q : SizedQueue L B M} {m : List Nat}
    {rest : List (List Nat)} (hm : q.buf.msgs = m :: rest) :
    q.loadLineFromBuf =
      { q with buf := { q.buf with msgs := rest }, peekedLine := m
               peekedLineLen := m.length
               havePeekedLine := decide (0 < m.length) } := by
  simp [SizedQueue.loadLineFromBuf, MsgBuffer.receive, hm]

theorem peekSt_of_cached {L B M : Nat} {q : SizedQueue L B M}
    (hpk : q.havePeekedLine = true) : q.peekSt = q := by
  simp [SizedQueue.peekSt, hpk]

theorem peekSt_of_empty {L B M : Nat} {q : SizedQueue L B M}
    (hsz : q.size = 0) : q.peekSt = q := by
  unfold SizedQueue.peekSt
  rw [if_pos hsz]

theorem peekSt_load {L B M : Nat} {q : SizedQueue L B M}
    (hsz : ¬ q.size = 0) (hpk : q.havePeekedLine = false) :
    q.peekSt = q.loadLineFromBuf := by
  unfold SizedQueue.peekSt
  rw [if_neg hsz, hpk]
  rfl

theorem pop_of_empty {L B M : Nat} {q : SizedQueue L B M}
    (hsz : q.size = 0) : q.pop = q := by
  unfold SizedQueue.pop
  rw [if_pos hsz]

theorem pop_of_cached {L B M : Nat} {q : SizedQueue L B M}
    (hsz : ¬ q.size = 0) (hpk : q.havePeekedLine = true) :
    q.pop = { q with freeLines := q.freeLines + 1
                     freeBytes := q.freeBytes + (q.peekedLineLen + 1)
                     havePeekedLine := false, peekedLineLen := 0 } := by
  unfold SizedQueue.pop
  rw [if_neg hsz, hpk]
  rfl

theorem pop_load_nil {L B M : Nat} {q : SizedQueue L B M}
    (hsz : ¬ q.size = 0) (hpk : q.havePeekedLine = false)
    (hm : q.buf.msgs = []) :
    q.pop = { q with peekedLine := [], freeLines := q.freeLines + 1
                     freeBytes := q.freeBytes + 1 } := by
  unfold SizedQueue.pop
  rw [if_neg hsz, hpk]
  simp [MsgBuffer.receive, hm]

theorem pop_load_cons {L B M : Nat} {q : SizedQueue L B M} {m : List Nat}
    {rest : List (List Nat)} (hsz : ¬ q.size = 0)
    (hpk : q.havePeekedLine = false) (hm : q.buf.msgs = m :: rest) :
    q.pop = { q with buf := { q.buf with msgs := rest }, peekedLine := m
                     freeLines := q.freeLines + 1
                     freeBytes := q.freeBytes + (m.length + 1) } := by
  unfold SizedQueue.pop
  rw [if_neg hsz, hpk]
  simp [MsgBuffer.receive, hm]

theorem sqInv_peekSt {L B M : Nat} {q : SizedQueue L B M} (h : SQInv q) :
    SQInv q.peekSt := by
  obtain ⟨h1, h2, h3, h4, h5, h6, h7⟩ := h
  by_cases hsz : q.size = 0
  · rw [peekSt_of_empty hsz]
    exact ⟨h1, h2, h3, h4, h5, h6, h7⟩
  by_cases hpk : q.havePeekedLine = true
  · rw [peekSt_of_cached hpk]
    exact ⟨h1, h2, h3, h4, h5, h6, h7⟩
  rw [Bool.not_eq_true] at hpk
  rw [peekSt_load hsz hpk]
  simp only [SizedQueue.logicalRecs] at h3 h4
  rw [hpk] at h3 h4
  simp at h3 h4
  rcases hm : q.buf.msgs with _ | ⟨m, rest⟩
  · rw [loadLine_nil hm]
    rw [hm] at h3 h4
    simp at h3 h4
    refine ⟨h1, h2, ?_, ?_, ?_, fun _ => rfl, h7⟩
    · simp [SizedQueue.logicalRecs, hm]
      omega
    · simp [SizedQueue.logicalRecs, hm]
      omega
    · intro hx
      exact absurd hx (by simp)
  · rw [loadLine_cons hm]
    rw [hm] at h3 h4
    simp at h3 h4
    by_cases hml : m.length = 0
    · have hd : decide (0 < m.length) = false := by simp [hml]
      rw [hd]
      refine ⟨h1, h2, ?_, ?_, ?_, fun _ => hml, h7⟩
      · simp [SizedQueue.logicalRecs]
        omega
      · simp [SizedQueue.logicalRecs]
        omega
      · intro hx
        exact absurd hx (by simp)
    · have hd : decide (0 < m.length) = true := by
        simp only [decide_eq_true_eq]
        omega
      rw [hd]
      refine ⟨h1, h2, ?_, ?_, fun _ => rfl, ?_, h7⟩
      · simp [SizedQueue.logicalRecs]
        omega
      · simp [SizedQueue.logicalRecs]
        omega
      · intro hx
        exact absurd hx (by simp)

theorem sqInv_pop {L B M : Nat} {q : SizedQueue L B M} (h : SQInv q) :
    SQInv q.pop := by
  obtain ⟨h1, h2, h3, h4, h5, h6, h7⟩ := h
  by_cases hsz : q.size = 0
  · rw [pop_of_empty hsz]
    exact ⟨h1, h2, h3, h4, h5, h6, h7⟩
  have hfl : q.freeLines < L := by
    unfold SizedQueue.size at hsz; omega
  by_cases hpk : q.havePeekedLine = true
  case pos =>
    have h5' := h5 hpk
    rw [pop_of_cached hsz hpk]
    simp only [SizedQueue.logicalRecs] at h3 h4
    rw [hpk] at h3 h4
    simp at h3 h4
    refine ⟨h1, ?_, ?_, ?_, ?_, fun _ => rfl, ?_⟩
    · show q.freeLines + 1 ≤ L
      omega
    · simp [SizedQueue.logicalRecs]
      omega
    · simp [SizedQueue.logicalRecs]
      omega
    · intro hx
      exact absurd hx (by simp)
    · intro hB
      show 1 ≤ q.freeBytes + (q.peekedLineLen + 1)
      omega
  case neg =>
  rw [Bool.not_eq_true] at hpk
  simp only [SizedQueue.logicalRecs] at h3 h4
  rw [hpk] at h3 h4
  simp at h3 h4
  rcases hm : q.buf.msgs with _ | ⟨m, rest⟩
  · rw [pop_load_nil hsz hpk hm]
    rw [hm] at h3 h4
    simp at h3 h4
    have hk : ¬ (L - q.freeLines = 0) := hsz
    refine ⟨h1, ?_, ?_, ?_, ?_, fun _ => h6 hpk, ?_⟩
    · show q.freeLines + 1 ≤ L
      omega
    · simp [SizedQueue.logicalRecs, hpk, hm]
      omega
    · simp [SizedQueue.logicalRecs, hpk, hm]
      omega
    · exact fun hx => absurd hx (by simp [hpk])
    · intro hB
      show 1 ≤ q.freeBytes + 1
      omega
  · rw [pop_load_cons hsz hpk hm]
    rw [hm] at h3 h4
    simp at h3 h4
    refine ⟨h1, ?_, ?_, ?_, ?_, fun _ => h6 hpk, ?_⟩
    · show q.freeLines + 1 ≤ L
      omega
    · simp [SizedQueue.logicalRecs, hpk]
      omega
    · simp [SizedQueue.logicalRecs, hpk]
      omega
    · exact fun hx => absurd hx (by simp [hpk])
    · intro hB
      show 1 ≤ q.freeBytes + (m.length + 1)
      omega

theorem sq_send_ok {L B M : Nat} {q : SizedQueue L B M} (h : SQInv q)
    (msg : List Nat) (len : Nat) (hc : q.canPush len = true) :
    q.buf.send (msg.take (min len M)) =
      some { q.buf with msgs := q.buf.msgs ++ [msg.take (min len M)] } := by
  unfold SizedQueue.canPush at hc
  simp only [Bool.and_eq_true, decide_eq_true_eq] at hc
  obtain ⟨hb, hl⟩ := hc
  have hused : q.buf.used + recCharge (msg.take (min len M)) ≤ q.buf.cap := by
    have h4 := h.bytes_eq
    have hlog : chargeSum q.logicalRecs =
        chargeSum (if q.havePeekedLine then [q.peekedLine] else [])
          + chargeSum q.buf.msgs := by
      simp [SizedQueue.logicalRecs, chargeSum_append]
    have htk : (msg.take (min len M)).length ≤ min len M :=
      List.length_take_le (min len M) msg
    have hrc : recCharge (msg.take (min len M)) = (msg.take (min len M)).length + 1 :=
      rfl
    have hcap := h.cap_eq
    unfold MsgBuffer.used
    omega
  unfold MsgBuffer.send
  rw [if_pos hused]

theorem sq_push_isSome {L B M : Nat} {q : SizedQueue L B M} (h : SQInv q)
    (msg : List Nat) (len : Nat) : (q.push msg len).isSome = true := by
  unfold SizedQueue.push
  split
  · rfl
  next hc =>
  have hc' : q.canPush len = true := by
    cases hq : q.canPush len
    · exact absurd hq hc
    · rfl
  rw [sq_send_ok h msg len hc']
  rfl

theorem sqInv_push {L B M : Nat} {q : SizedQueue L B M} {msg : List Nat}
    {len : Nat} {flag : Bool} {q' : SizedQueue L B M} (h : SQInv q)
    (hlen : len ≤ msg.length) (hp : q.push msg len = some (flag, q')) :
    SQInv q' := by
  obtain ⟨h1, h2, h3, h4, h5, h6, h7⟩ := h
  unfold SizedQueue.push at hp
  split at hp
  · simp only [Option.some.injEq, Prod.mk.injEq] at hp
    obtain ⟨-, rfl⟩ := hp
    exact ⟨h1, h2, h3, h4, h5, h6, h7⟩
  next hc =>
  have hc' : q.canPush len = true := by
    cases hq : q.canPush len
    · exact absurd hq hc
    · rfl
  unfold SizedQueue.canPush at hc'
  simp only [Bool.and_eq_true, decide_eq_true_eq] at hc'
  obtain ⟨hb, hl⟩ := hc'
  have hrec : (msg.take (min len M)).length = min len M := by
    simp only [List.length_take]
    omega
  split at hp
  next b heq =>
    unfold MsgBuffer.send at heq
    split at heq
    next hroom =>
      simp only [Option.some.injEq] at heq
      subst heq
      simp only [Option.some.injEq, Prod.mk.injEq] at hp
      obtain ⟨-, rfl⟩ := hp
      simp only [SizedQueue.logicalRecs, List.length_append] at h3
      simp only [SizedQueue.logicalRecs, chargeSum_append, List.length_append] at h4
      refine ⟨h1, ?_, ?_, ?_, h5, h6, ?_⟩
      · show q.freeLines - 1 ≤ L
        omega
      · dsimp only [SizedQueue.logicalRecs]
        simp only [List.length_append, List.length_cons, List.length_nil]
        omega
      · dsimp only [SizedQueue.logicalRecs]
        simp only [chargeSum_append, chargeSum_cons, chargeSum_nil,
                   List.length_append, List.length_cons, List.length_nil, hrec]
        omega
      · intro hB
        show 1 ≤ q.freeBytes - (min len M + 1)
        omega
    next => exact absurd heq (by simp)
  next heq => exact absurd hp (by simp)

theorem sqReachable_inv {L B M : Nat} {q : SizedQueue L B M}
    (h : SQReachable q) : SQInv q := by
  induction h with
  | init => apply sqInv_init
  | clear _ ih => exact sqInv_clear ih
  | push _ hlen hp ih => exact sqInv_push ih hlen hp
  | peek _ ih => exact sqInv_peekSt ih
  | pop _ ih => exact sqInv_pop ih

theorem scInv_init (L B S : Nat) : SCInv (SimpleCounter.init L B S) := by
  constructor <;> simp [SimpleCounter.init]

theorem scInv_clear {L B S : Nat} {q : SimpleCounter L B S} (_h : SCInv q) :
    SCInv q.clear := by
  constructor <;> simp [SimpleCounter.clear]

theorem scInv_push {L B S : Nat} {q : SimpleCounter L B S} {msg : List Nat}
    {len : Nat} {flag : Bool} {q' : SimpleCounter L B S} (h : SCInv q)
    (hp : q.push msg len = (flag, q')) : SCInv q' := by
  obtain ⟨h1, h2⟩ := h
  unfold SimpleCounter.push at hp
  split at hp
  · simp only [Prod.mk.injEq] at hp
    obtain ⟨-, rfl⟩ := hp
    exact ⟨h1, h2⟩
  next hc =>
  have hc' : q.canPush len = true := by
    cases hq : q.canPush len
    · exact absurd hq hc
    · rfl
  unfold SimpleCounter.canPush at hc'
  simp only [Bool.and_eq_true, decide_eq_true_eq] at hc'
  obtain ⟨hll, hbb⟩ := hc'
  simp only [Prod.mk.injEq] at hp
  obtain ⟨-, rfl⟩ := hp
  constructor <;> simp_all <;> omega

theorem scInv_pop {L B S : Nat} {q : SimpleCounter L B S} (h : SCInv q) :
    SCInv q.pop := by
  obtain ⟨h1, h2⟩ := h
  unfold SimpleCounter.pop
  rcases hm : q.queue with _ | ⟨v, rest⟩
  · exact ⟨by simp_all, by simp_all⟩
  · constructor <;> simp_all <;> omega

theorem scReachable_inv {L B S : Nat} {q : SimpleCounter L B S}
    (h : SCReachable q) : SCInv q := by
  induction h with
  | init => apply scInv_init
  | clear _ ih => exact scInv_clear ih
  | push _ hp ih => exact scInv_push ih hp
  | pop _ ih => exact scInv_pop ih

theorem peekSt_freeLines {L B M : Nat} (q : SizedQueue L B M) :
    q.peekSt.freeLines = q.freeLines := by
  by_cases hsz : q.size = 0
  · rw [peekSt_of_empty hsz]
  by_cases hpk : q.havePeekedLine = true
  · rw [peekSt_of_cached hpk]
  rw [Bool.not_eq_true] at hpk
  rw [peekSt_load hsz hpk]
  rfl

theorem peekSt_freeBytes {L B M : Nat} (q : SizedQueue L B M) :
    q.peekSt.freeBytes = q.freeBytes := by
  by_cases hsz : q.size = 0
  · rw [peekSt_of_empty hsz]
  by_cases hpk : q.havePeekedLine = true
  · rw [peekSt_of_cached hpk]
  rw [Bool.not_eq_true] at hpk
  rw [peekSt_load hsz hpk]
  rfl

theorem peekSt_logical {L B M : Nat} (q : SizedQueue L B M)
    (hhd : q.buf.msgs.head? ≠ some []) :
    q.peekSt.logicalRecs = q.logicalRecs := by
  by_cases hsz : q.size = 0
  · rw [peekSt_of_empty hsz]
  by_cases hpk : q.havePeekedLine = true
  · rw [peekSt_of_cached hpk]
  rw [Bool.not_eq_true] at hpk
  rw [peekSt_load hsz hpk]
  rcases hm : q.buf.msgs with _ | ⟨m, rest⟩
  · rw [loadLine_nil hm]
    simp [SizedQueue.logicalRecs, hpk]
  · have hm0 : ¬ m = [] := by
      rw [hm] at hhd
      simp at hhd
      exact hhd
    have hd : decide (0 < m.length) = true := by
      simp only [decide_eq_true_eq]
      exact List.length_pos.mpr hm0
    rw [loadLine_cons hm, hd]
    simp [SizedQueue.logicalRecs, hpk, hm]

theorem peekSt_idem {L B M : Nat} {q : SizedQueue L B M}
    (hhd : q.buf.msgs.head? ≠ some []) :
    q.peekSt.peekSt = q.peekSt := by
  by_cases hsz : q.size = 0
  · rw [peekSt_of_empty hsz, peekSt_of_empty hsz]
  by_cases hpk : q.havePeekedLine = true
  · rw [peekSt_of_cached hpk, peekSt_of_cached hpk]
  rw [Bool.not_eq_true] at hpk
  rcases hm : q.buf.msgs with _ | ⟨m, rest⟩
  · rw [peekSt_load hsz hpk, loadLine_nil hm]
    rw [@peekSt_load L B M ⟨q.buf, q.freeLines, q.freeBytes, [], 0, false⟩ hsz rfl]
    exact @loadLine_nil L B M ⟨q.buf, q.freeLines, q.freeBytes, [], 0, false⟩ hm
  · have hm0 : ¬ m = [] := by
      rw [hm] at hhd
      simp at hhd
      exact hhd
    have hd : decide (0 < m.length) = true := by
      simp only [decide_eq_true_eq]
      exact List.length_pos.mpr hm0
    rw [peekSt_load hsz hpk, loadLine_cons hm, hd]
    exact peekSt_of_cached rfl

theorem pop_after_peekSt {L B M : Nat} {q : SizedQueue L B M}
    (hcn : q.havePeekedLine = false → q.peekedLineLen = 0)
    (hhd : q.buf.msgs.head? ≠ some []) :
    q.peekSt.pop = q.pop := by
  by_cases hsz : q.size = 0
  · rw [peekSt_of_empty hsz]
  by_cases hpk : q.havePeekedLine = true
  · rw [peekSt_of_cached hpk]
  rw [Bool.not_eq_true] at hpk
  have hc0 := hcn hpk
  rcases hm : q.buf.msgs with _ | ⟨m, rest⟩
  · rw [peekSt_load hsz hpk, loadLine_nil hm]
    rw [pop_load_nil hsz hpk hm, hc0, hpk]
    exact @pop_load_nil L B M ⟨q.buf, q.freeLines, q.freeBytes, [], 0, false⟩ hsz rfl hm
  · have hm0 : ¬ m = [] := by
      rw [hm] at hhd
      simp at hhd
      exact hhd
    have hd : decide (0 < m.length) = true := by
      simp only [decide_eq_true_eq]
      exact List.length_pos.mpr hm0
    rw [peekSt_load hsz hpk, loadLine_cons hm, hd]
    rw [pop_load_cons hsz hpk hm, hc0, hpk]
    exact @pop_of_cached L B M
      ⟨{ q.buf with msgs := rest }, q.freeLines, q.freeBytes, m, m.length, true⟩
      hsz rfl

theorem peekSt_canon {L B M : Nat} {q : SizedQueue L B M}
    (hcn : q.havePeekedLine = false → q.peekedLineLen = 0) :
    q.peekSt.havePeekedLine = false → q.peekSt.peekedLineLen = 0 := by
  by_cases hsz : q.size = 0
  · rw [peekSt_of_empty hsz]
    exact hcn
  by_cases hpk : q.havePeekedLine = true
  · rw [peekSt_of_cached hpk]
    exact hcn
  rw [Bool.not_eq_true] at hpk
  rw [peekSt_load hsz hpk]
  rcases hm : q.buf.msgs with _ | ⟨m, rest⟩
  · rw [loadLine_nil hm]
    exact fun _ => rfl
  · rw [loadLine_cons hm]
    intro hx
    show m.length = 0
    have hx' : decide (0 < m.length) = false := hx
    simp only [decide_eq_false_iff_not] at hx'
    omega

theorem pop_canon {L B M : Nat} {q : SizedQueue L B M}
    (hcn : q.havePeekedLine = false → q.peekedLineLen = 0) :
    q.pop.havePeekedLine = false → q.pop.peekedLineLen = 0 := by
  by_cases hsz : q.size = 0
  · rw [pop_of_empty hsz]
    exact hcn
  by_cases hpk : q.havePeekedLine = true
  · rw [pop_of_cached hsz hpk]
    exact fun _ => rfl
  rw [Bool.not_eq_true] at hpk
  rcases hm : q.buf.msgs with _ | ⟨m, rest⟩
  · rw [pop_load_nil hsz hpk hm]
    exact fun _ => hcn hpk
  · rw [pop_load_cons hsz hpk hm]
    exact fun _ => hcn hpk

theorem peekSt_ne {L B M : Nat} {q : SizedQueue L B M}
    (hne : ∀ x ∈ q.buf.msgs, x ≠ []) :
    ∀ x ∈ q.peekSt.buf.msgs, x ≠ [] := by
  by_cases hsz : q.size = 0
  · rw [peekSt_of_empty hsz]
    exact hne
  by_cases hpk : q.havePeekedLine = true
  · rw [peekSt_of_cached hpk]
    exact hne
  rw [Bool.not_eq_true] at hpk
  rw [peekSt_load hsz hpk]
  rcases hm : q.buf.msgs with _ | ⟨m, rest⟩
  · rw [loadLine_nil hm]
    exact hne
  · rw [loadLine_cons hm]
    intro x hx
    exact hne x (by rw [hm]; exact List.mem_cons_of_mem m hx)

theorem pop_ne {L B M : Nat} {q : SizedQueue L B M}
    (hne : ∀ x ∈ q.buf.msgs, x ≠ []) :
    ∀ x ∈ q.pop.buf.msgs, x ≠ [] := by
  by_cases hsz : q.size = 0
  · rw [pop_of_empty hsz]
    exact hne
  by_cases hpk : q.havePeekedLine = true
  · rw [pop_of_cached hsz hpk]
    exact hne
  rw [Bool.not_eq_true] at hpk
  rcases hm : q.buf.msgs with _ | ⟨m, rest⟩
  · rw [pop_load_nil hsz hpk hm]
    exact hne
  · rw [pop_load_cons hsz hpk hm]
    intro x hx
    exact hne x (by rw [hm]; exact List.mem_cons_of_mem m hx)

theorem ne_head {L B M : Nat} {q : SizedQueue L B M}
    (hne : ∀ x ∈ q.buf.msgs, x ≠ []) : q.buf.msgs.head? ≠ some [] := by
  intro hcontra
  rcases hm : q.buf.msgs with _ | ⟨m, rest⟩
  · rw [hm] at hcontra
    simp at hcontra
  · rw [hm] at hcontra
    simp only [List.head?_cons, Option.some.injEq] at hcontra
    exact hne m (by rw [hm]; exact List.mem_cons_self m rest) hcontra

theorem popIter_peekSt {L B M : Nat} {q : SizedQueue L B M}
    (hcn : q.havePeekedLine = false → q.peekedLineLen = 0)
    (hne : ∀ x ∈ q.buf.msgs, x ≠ []) (n : Nat) :
    (popIter q.peekSt n).freeLines = (popIter q n).freeLines ∧
    (popIter q.peekSt n).freeBytes = (popIter q n).freeBytes ∧
    (popIter q.peekSt n).logicalRecs = (popIter q n).logicalRecs := by
  cases n with
  | zero =>
    exact ⟨peekSt_freeLines q, peekSt_freeBytes q, peekSt_logical q (ne_head hne)⟩
  | succ n =>
    have hpp := pop_after_peekSt hcn (ne_head hne)
    show (popIter q.peekSt.pop n).freeLines = (popIter q.pop n).freeLines ∧
      (popIter q.peekSt.pop n).freeBytes = (popIter q.pop n).freeBytes ∧
      (popIter q.peekSt.pop n).logicalRecs = (popIter q.pop n).logicalRecs
    rw [hpp]
    exact ⟨rfl, rfl, rfl⟩

/-- C1: evaluation at the failing input. On a fresh tagged queue, a push of a
one-byte record with tag 7 returns true and enqueues the tag, yet `count()`
(`itemCount`) stays 0: the tag FIFO length and the record count disagree,
because `MessageQueue::push` increments neither `itemCount` nor `bytesCount`. -/
theorem tagged_count_desync :
    ((MessageQueue.init Nat 32 100).push [71] 1 7).1 = true ∧
    ((MessageQueue.init Nat 32 100).push [71] 1 7).2.tags.length = 1 ∧
    ((MessageQueue.init Nat 32 100).push [71] 1 7).2.count = 0 := by
  decide

/-- C2: evaluation at the failing input. After three successful pushes with the
tags 1, 2, 3, the tag FIFO does hold [1, 2, 3] in order, but `pop` returns
false without changing the state and `peek` yields nothing, because
`itemCount` is stuck at 0; no tag - let alone the sequence T1, T2, T3 - is
ever delivered by pops. -/
theorem tagged_fifo_undelivered :
    ((MessageQueue.init Nat 64 100).push [65] 1 1).1 = true ∧
    (((MessageQueue.init Nat 64 100).push [65] 1 1).2.push [66] 1 2).1 = true ∧
    ((((MessageQueue.init Nat 64 100).push [65] 1 1).2.push [66] 1 2).2.push
        [67] 1 3).1 = true ∧
    mq3.tags = [1, 2, 3] ∧
    mq3.pop = (false, mq3) ∧
    (mq3.peek).1 = none := by
  decide

/-- C3, counterexample: for the counting-only variant the claimed
characterisation fails. On a fresh `SimpleCounter 3 10 1` with `len = 9`, the
code's `canPush` is true (`freeBytes >= len + SUFFIX_LEN`, non-strict), while
the spec's predicate (strict `freeBytes > min(len, MAX_LINE_LEN) + overhead`,
here with the source default `MAX_LINE_LEN = 100`) is false. -/
theorem canPush_strictness_cex :
    SimpleCounter.canPush (SimpleCounter.init 3 10 1) 9 = true ∧
    specCanPush (SimpleCounter.init 3 10 1).getFreeLines
      (SimpleCounter.init 3 10 1).getFreeBytes 9 100 1 = false := by
  decide

/-- C3, amended: `canPush` is a pure predicate of the state in both variants.
For the byte-backed queue it is exactly the spec's formula (strict comparison
against the truncated charged length, overhead 1); for the counting-only
variant it is a free slot plus a NON-strict comparison against the
UNtruncated `len + SUFFIX_LEN`. -/
theorem canPush_characterization :
    (∀ (L B M : Nat) (q : SizedQueue L B M) (len : Nat),
        q.canPush len = specCanPush q.getFreeLines q.getFreeBytes len M 1)
    ∧ (∀ (L B S : Nat) (q : SimpleCounter L B S) (len : Nat),
        q.canPush len =
          (decide (q.size < L) && decide (len + S ≤ q.getFreeBytes))) := by
  constructor
  · intro L B M q len
    simp [SizedQueue.canPush, specCanPush, SizedQueue.getFreeLines,
          SizedQueue.getFreeBytes, Bool.and_comm]
  · intro L B S q len
    rfl

/-- C4: in every reachable state of either Counter variant the counters stay
in range and `size()` equals `LEN_LINES - freeLines` (for the counting-only
variant, `freeLines` is its derived `getFreeLines`). -/
theorem reachable_counters_in_range :
    (∀ (L B M : Nat) (q : SizedQueue L B M), SQReachable q →
        q.freeLines ≤ L ∧ q.freeBytes ≤ B ∧ q.size = L - q.getFreeLines)
    ∧ (∀ (L B S : Nat) (q : SimpleCounter L B S), SCReachable q →
        q.getFreeLines ≤ L ∧ q.freeBytes ≤ B ∧ q.size = L - q.getFreeLines) := by
  constructor
  · intro L B M q h
    obtain ⟨h1, h2, h3, h4, h5, h6, h7⟩ := sqReachable_inv h
    exact ⟨h2, by omega, rfl⟩
  · intro L B S q h
    obtain ⟨h1, h2⟩ := scReachable_inv h
    refine ⟨?_, by omega, ?_⟩
    · show L - q.queue.length ≤ L
      omega
    · show q.queue.length = L - (L - q.queue.length)
      omega

/-- Witness for C4, at the two initial states. -/
theorem reachable_counters_in_range_witness :
    ((SizedQueue.init 16 128 100).freeLines ≤ 16 ∧
      (SizedQueue.init 16 128 100).freeBytes ≤ 128 ∧
      (SizedQueue.init 16 128 100).size =
        16 - (SizedQueue.init 16 128 100).getFreeLines) ∧
    ((SimpleCounter.init 16 128 1).getFreeLines ≤ 16 ∧
      (SimpleCounter.init 16 128 1).freeBytes ≤ 128 ∧
      (SimpleCounter.init 16 128 1).size =
        16 - (SimpleCounter.init 16 128 1).getFreeLines) :=
  ⟨reachable_counters_in_range.1 16 128 100 (SizedQueue.init 16 128 100)
      (SQReachable.init 16 128 100),
   reachable_counters_in_range.2 16 128 1 (SimpleCounter.init 16 128 1)
      (SCReachable.init 16 128 1)⟩

/-- C5, counterexample: the counting-only variant does not truncate. On a
fresh `SimpleCounter 16 128 1`, a push of length 101 (beyond the source's
default `MAX_LINE_LEN = 100`) succeeds and charges 101 + 1 = 102 bytes,
leaving `freeBytes = 26`, not the `MAX_LINE_LEN + overhead = 101` the claim
requires (which would leave 27). -/
theorem truncation_charge_cex :
    ((SimpleCounter.init 16 128 1).push [] 101).1 = true ∧
    ((SimpleCounter.init 16 128 1).push [] 101).2.freeBytes = 26 ∧
    ¬ (128 - 26 = 100 + 1) := by
  decide

/-- C5, amended: for the byte-backed queue, a successful push of a record
longer than `MAX_LINE_LEN` stores exactly the first `MAX_LINE_LEN` bytes and
charges exactly `MAX_LINE_LEN + 1`; the counting-only variant instead charges
the untruncated `len + SUFFIX_LEN`. -/
theorem push_truncation_accounting :
    (∀ (L B M : Nat) (q : SizedQueue L B M) (msg : List Nat) (len : Nat),
        SQReachable q → q.canPush len = true → M < len → len ≤ msg.length →
        q.push msg len = some (true,
          { q with buf := { q.buf with msgs := q.buf.msgs ++ [msg.take M] }
                   freeLines := q.freeLines - 1
                   freeBytes := q.freeBytes - (M + 1) }) ∧
        (msg.take M).length = M)
    ∧ (∀ (L B S : Nat) (q : SimpleCounter L B S) (msg : List Nat) (len : Nat),
        q.canPush len = true →
        (q.push msg len).2.freeBytes + (len + S) = q.freeBytes) := by
  constructor
  · intro L B M q msg len hr hc hM hlen
    have hinv := sqReachable_inv hr
    have hmin : min len M = M := by omega
    have hsend := sq_send_ok hinv msg len hc
    rw [hmin] at hsend
    constructor
    · unfold SizedQueue.push
      rw [if_neg (by simp [hc]), hmin, hsend]
    · rw [List.length_take]
      omega
  · intro L B S q msg len hc
    unfold SimpleCounter.push
    rw [if_neg (by simp [hc])]
    show (q.freeBytes - (len + S)) + (len + S) = q.freeBytes
    unfold SimpleCounter.canPush at hc
    simp only [Bool.and_eq_true, decide_eq_true_eq] at hc
    omega

/-- Witness for C5: a length-3 record pushed into a `SizedQueue 4 16 2`
(truncation bound 2) and a length-2 record pushed into a
`SimpleCounter 3 10 1`. -/
theorem push_truncation_accounting_witness :
    ((SizedQueue.init 4 16 2).push [65, 66, 67] 3 = some (true,
      { SizedQueue.init 4 16 2 with
          buf := { (SizedQueue.init 4 16 2).buf with
            msgs := (SizedQueue.init 4 16 2).buf.msgs ++ [[65, 66, 67].take 2] }
          freeLines := (SizedQueue.init 4 16 2).freeLines - 1
          freeBytes := (SizedQueue.init 4 16 2).freeBytes - (2 + 1) }) ∧
      ([65, 66, 67].take 2).length = 2) ∧
    ((SimpleCounter.init 3 10 1).push [65, 66] 2).2.freeBytes + (2 + 1) = 10 :=
  ⟨push_truncation_accounting.1 4 16 2 (SizedQueue.init 4 16 2) [65, 66, 67] 3
      (SQReachable.init 4 16 2) (by decide) (by decide) (by decide),
   push_truncation_accounting.2 3 10 1 (SimpleCounter.init 3 10 1) [65, 66] 2
      (by decide)⟩

/-- C6: in both Counter variants, when `canPush(len)` is false, `push` returns
false and the state is returned completely unchanged. -/
theorem push_rejected_is_noop :
    (∀ (L B M : Nat) (q : SizedQueue L B M) (msg : List Nat) (len : Nat),
        q.canPush len = false → q.push msg len = some (false, q))
    ∧ (∀ (L B S : Nat) (q : SimpleCounter L B S) (msg : List Nat) (len : Nat),
        q.canPush len = false → q.push msg len = (false, q)) := by
  constructor
  · intro L B M q msg len hc
    unfold SizedQueue.push
    rw [if_pos hc]
  · intro L B S q msg len hc
    unfold SimpleCounter.push
    rw [if_pos hc]

/-- Witness for C6, at queues filled to their line capacity: the extra push is
rejected with all counters unchanged. -/
theorem push_rejected_is_noop_witness :
    (SizedQueue.canPush sqFullExample 1 = false ∧
      SizedQueue.push sqFullExample [67] 1 = some (false, sqFullExample)) ∧
    (SimpleCounter.canPush scFullExample 1 = false ∧
      SimpleCounter.push scFullExample [67] 1 = (false, scFullExample)) :=
  ⟨⟨by decide, push_rejected_is_noop.1 2 16 4 sqFullExample [67] 1 (by decide)⟩,
   ⟨by decide, push_rejected_is_noop.2 2 16 1 scFullExample [67] 1 (by decide)⟩⟩

/-- C7, counterexample: with a zero-length record at the front of the store,
one bare pop refunds 1 byte, while a peek followed by one pop over the same
contents refunds 2 bytes (the peek silently consumed the empty record), so a
pop-only drain and a peek-then-pop drain with the same number of pops differ
both in refund and in which record was drained. -/
theorem drain_equiv_cex :
    (runOps sqZeroRecExample [COp.popOp]).freeBytes = 14 ∧
    (runOps sqZeroRecExample [COp.peekOp, COp.popOp]).freeBytes = 15 ∧
    popCount [COp.popOp] = popCount [COp.peekOp, COp.popOp] := by
  decide

/-- C7, amended: over contents with no zero-length records (and a canonical
cache), any interleaving of peeks and pops leaves exactly the same
`freeLines`, `freeBytes` and logically buffered records - hence drained the
same records in the same FIFO order and refunded the same bytes - as the
pop-only schedule with the same number of pops. -/
theorem drain_equivalence {L B M : Nat} (q : SizedQueue L B M)
    (hcn : q.havePeekedLine = false → q.peekedLineLen = 0)
    (hne : ∀ x ∈ q.buf.msgs, x ≠ []) (s : List COp) :
    (runOps q s).freeLines = (popIter q (popCount s)).freeLines ∧
    (runOps q s).freeBytes = (popIter q (popCount s)).freeBytes ∧
    (runOps q s).logicalRecs = (popIter q (popCount s)).logicalRecs := by
  induction s generalizing q with
  | nil => exact ⟨rfl, rfl, rfl⟩
  | cons op s ih =>
    cases op with
    | popOp => exact ih q.pop (pop_canon hcn) (pop_ne hne)
    | peekOp =>
      have h1 := ih q.peekSt (peekSt_canon hcn) (peekSt_ne hne)
      have h2 := popIter_peekSt hcn hne (popCount s)
      exact ⟨h1.1.trans h2.1, h1.2.1.trans h2.2.1, h1.2.2.trans h2.2.2⟩

/-- Witness for C7, on a queue holding two one-byte records, with the schedule
peek-pop-peek against its single bare pop. -/
theorem drain_equivalence_witness :
    (runOps sqFullExample [COp.peekOp, COp.popOp, COp.peekOp]).freeLines =
      (popIter sqFullExample
        (popCount [COp.peekOp, COp.popOp, COp.peekOp])).freeLines ∧
    (runOps sqFullExample [COp.peekOp, COp.popOp, COp.peekOp]).freeBytes =
      (popIter sqFullExample
        (popCount [COp.peekOp, COp.popOp, COp.peekOp])).freeBytes ∧
    (runOps sqFullExample [COp.peekOp, COp.popOp, COp.peekOp]).logicalRecs =
      (popIter sqFullExample
        (popCount [COp.peekOp, COp.popOp, COp.peekOp])).logicalRecs :=
  drain_equivalence sqFullExample (by decide) (by decide)
    [COp.peekOp, COp.popOp, COp.peekOp]

/-- C8, counterexample: in a non-empty state whose oldest record is
zero-length, two consecutive peeks return different lengths and contents
(0, then the following record), because the first cache-missing peek silently
consumed the empty record. -/
theorem peek_idem_cex :
    0 < sqZeroRecExample.size ∧
    (sqZeroRecExample.peek).1 = (0, []) ∧
    ((sqZeroRecExample.peek).2.peek).1 = (1, [65]) := by
  decide

/-- C8, amended: in every state (no hypothesis), a peek leaves `freeLines`,
`freeBytes` and `size()` unchanged; and provided the oldest record in the
store is not zero-length (in particular whenever no zero-length record was
ever pushed), a second peek additionally returns exactly the first peek's
length, content and state. -/
theorem peek_idempotent {L B M : Nat} (q : SizedQueue L B M) :
    (q.peek).2.freeLines = q.freeLines ∧
    (q.peek).2.freeBytes = q.freeBytes ∧
    (q.peek).2.size = q.size ∧
    (q.buf.msgs.head? ≠ some [] → (q.peek).2.peek = q.peek) := by
  by_cases hsz : q.size = 0
  · have e : q.peek = ((0, []), q) := by
      unfold SizedQueue.peek
      rw [if_pos hsz]
    rw [e]
    exact ⟨rfl, rfl, rfl, fun _ => e⟩
  · have hsznn : ¬ q.peekSt.size = 0 := by
      show ¬ (L - q.peekSt.freeLines = 0)
      rw [peekSt_freeLines]
      exact hsz
    have e : q.peek = ((q.peekSt.peekedLineLen, q.peekSt.peekedLine), q.peekSt) := by
      unfold SizedQueue.peek
      rw [if_neg hsz]
    have e2 : q.peekSt.peek =
        ((q.peekSt.peekSt.peekedLineLen, q.peekSt.peekSt.peekedLine),
          q.peekSt.peekSt) := by
      unfold SizedQueue.peek
      rw [if_neg hsznn]
    refine ⟨?_, ?_, ?_, ?_⟩
    · rw [e]
      exact peekSt_freeLines q
    · rw [e]
      exact peekSt_freeBytes q
    · rw [e]
      show L - q.peekSt.freeLines = L - q.freeLines
      rw [peekSt_freeLines]
    · intro hhd
      rw [e]
      show q.peekSt.peek = ((q.peekSt.peekedLineLen, q.peekSt.peekedLine), q.peekSt)
      rw [e2, peekSt_idem hhd]

/-- Witness for C8, on a queue holding the records [65] and [66], discharging
the non-zero-length-front hypothesis of the idempotence conjunct there. -/
theorem peek_idempotent_witness :
    (sqFullExample.peek).2.freeLines = sqFullExample.freeLines ∧
    (sqFullExample.peek).2.freeBytes = sqFullExample.freeBytes ∧
    (sqFullExample.peek).2.size = sqFullExample.size ∧
    (sqFullExample.peek).2.peek = sqFullExample.peek :=
  ⟨(peek_idempotent sqFullExample).1,
   (peek_idempotent sqFullExample).2.1,
   (peek_idempotent sqFullExample).2.2.1,
   (peek_idempotent sqFullExample).2.2.2 (by decide)⟩

/-- C9: in every reachable state of the byte-backed queue, `push` never
reaches the fatal-assert branch (it always returns a value), and whenever the
`canPush` pre-check passes, the record-store send succeeds outright. The
Record Store here is modelled from the spec (section 4.1): send fails exactly
on insufficient room, one framing byte per record. -/
theorem push_assert_unreachable :
    ∀ (L B M : Nat) (q : SizedQueue L B M), SQReachable q →
      ∀ (msg : List Nat) (len : Nat),
        (q.push msg len).isSome = true ∧
        (q.canPush len = true →
          q.buf.send (msg.take (min len M)) =
            some { q.buf with msgs := q.buf.msgs ++ [msg.take (min len M)] }) := by
  intro L B M q h msg len
  have hinv := sqReachable_inv h
  exact ⟨sq_push_isSome hinv msg len, fun hc => sq_send_ok hinv msg len hc⟩

/-- Witness for C9, at the default-sized fresh queue. -/
theorem push_assert_unreachable_witness :
    ((SizedQueue.init 16 128 100).push [65] 1).isSome = true ∧
    (SizedQueue.canPush (SizedQueue.init 16 128 100) 1 = true →
      (SizedQueue.init 16 128 100).buf.send ([65].take (min 1 100)) =
        some { (SizedQueue.init 16 128 100).buf with
          msgs := (SizedQueue.init 16 128 100).buf.msgs
            ++ [[65].take (min 1 100)] }) :=
  push_assert_unreachable 16 128 100 (SizedQueue.init 16 128 100)
    (SQReachable.init 16 128 100) [65] 1

/-- C10: for a byte-backed queue with a non-trivial budget, the strict
admission inequality keeps at least one budget byte free in every reachable
state, so `bytes()` never reaches `LEN_BYTES`. -/
theorem freeBytes_never_exhausted :
    ∀ (L B M : Nat) (q : SizedQueue L B M), 1 ≤ B → SQReachable q →
      1 ≤ q.freeBytes ∧ q.bytes ≤ B - 1 := by
  intro L B M q hB h
  obtain ⟨h1, h2, h3, h4, h5, h6, h7⟩ := sqReachable_inv h
  refine ⟨h7 hB, ?_⟩
  show B - q.freeBytes ≤ B - 1
  have := h7 hB
  omega

/-- Witness for C10, at the default-sized fresh queue. -/
theorem freeBytes_never_exhausted_witness :
    1 ≤ (SizedQueue.init 16 128 100).freeBytes ∧
      (SizedQueue.init 16 128 100).bytes ≤ 128 - 1 :=
  freeBytes_never_exhausted 16 128 100 (SizedQueue.init 16 128 100)
    (by decide) (SQReachable.init 16 128 100)
